import Mathlib

/-!
Verification development for the ccan repository (option parser `ccan/opt`
and string helpers `ccan/str_talloc`).

Strings are embedded as lists of characters (`Str`).  The string helpers
`strsplit` and `strjoin` are translated from `src/ccan/str_talloc/str_talloc.c`.
The option parser is declared in `src/ccan/opt/opt.h`; its implementation file
is not part of the sources, so the registration/classification/matching/
dispatch engine is modelled from the specification (each such definition says
so in its doc comment), with the data model and documented contracts taken
from `opt.h`.
-/

namespace Ccan

/-- Strings are modelled as lists of characters. -/
abbrev Str := List Char

namespace StrTalloc

/-- Length of the maximal initial segment of `s` containing no character of
`delims`; this is the C library function `strcspn` as used by `strsplit`. -/
def strcspn : Str → Str → Nat
  | [], _ => 0
  | c :: s, delims => if c ∈ delims then 0 else strcspn s delims + 1

/-- Length of the maximal initial segment of `s` consisting only of characters
of `delims`; this is the C library function `strspn` as used by `strsplit`. -/
def strspn : Str → Str → Nat
  | [], _ => 0
  | c :: s, delims => if c ∈ delims then strspn s delims + 1 else 0

/-- The loop of `strsplit` from `src/ccan/str_talloc/str_talloc.c`: while the
string is nonempty, copy the maximal delimiter-free initial segment into the
next array slot, advance past it, skip one delimiter character when the
remainder starts with one, and increment the counter `num`.  Returns the
collected substrings together with the final value of `num`. -/
def strsplitRun (s delims : Str) : List Str × Nat :=
  if h : s = [] then ([], 0)
  else
    let len := strcspn s delims
    let rest := s.drop len
    let rest2 := if strspn rest delims ≠ 0 then rest.drop 1 else rest
    let r := strsplitRun rest2 delims
    (s.take len :: r.1, r.2 + 1)
termination_by s.length
decreasing_by
  have hkey : ∀ (t d : Str), t ≠ [] → strcspn t d = 0 → strspn t d ≠ 0 := by
    intro t d ht h0
    cases t with
    | nil => exact absurd rfl ht
    | cons a t =>
      by_cases ha : a ∈ d
      · simp [strspn, ha]
      · simp [strcspn, ha] at h0
  have hs : 0 < s.length := List.length_pos.mpr h
  split
  next hsp =>
    simp only [List.length_drop]
    omega
  next hsp =>
    have h0 : strcspn s delims ≠ 0 := by
      intro hz
      rw [hz] at hsp
      simp only [List.drop_zero] at hsp
      exact hsp (hkey s delims h hz)
    simp only [List.length_drop]
    omega

/-- Embedding of `strsplit` from `src/ccan/str_talloc/str_talloc.c`: returns
the array written by the loop, with the final `lines[num] = NULL` terminator
made explicit as a trailing `none`, together with the value stored through the
`nump` out-parameter. -/
def strsplit (s delims : Str) : List (Option Str) × Nat :=
  let r := strsplitRun s delims
  (r.1.map some ++ [none], r.2)

/-- Embedding of `strjoin` from `src/ccan/str_talloc/str_talloc.c`: starting
from the empty string, append each element of `strings` followed by `delim`. -/
def strjoin (strings : List Str) (delim : Str) : Str :=
  strings.foldl (fun ret s => ret ++ s ++ delim) []

/-- Stated from the claim for comparison with `strjoin`: the concatenation
`s_0 d s_1 d ... s_{n-1} d` with the delimiter after every element including
the last, and the empty string for the empty array. -/
def joinSpec : List Str → Str → Str
  | [], _ => []
  | s :: rest, delim => s ++ delim ++ joinSpec rest delim

end StrTalloc

namespace Opt

/-- Arity of an option, from the flags in `src/ccan/opt/opt.h` (`OPT_NOARG`,
`OPT_HASARG`); the subtable and end-of-table flags are represented
structurally by `TableEntry` below. -/
inductive Arity where
  | noArg
  | hasArg
deriving DecidableEq

/-- One option descriptor, from `struct opt_table` in `src/ccan/opt/opt.h`
(lines 15-23).  The two callback slots are modelled by their observable
behaviour: `cbNo` is the result the no-argument callback returns when invoked
(`none` for success, `some msg` for an error message, opt.h lines 36-38), and
`cbArg` is the success indicator the argument-taking callback returns for a
given argument text (opt.h lines 59-60).  The bound context pointer is
absorbed into these behaviours. -/
structure OptDesc where
  longName : Option Str
  shortName : Option Char
  arity : Arity
  cbNo : Option Str
  cbArg : Str → Bool

/-- The flattened registry: an ordered sequence of option descriptors. -/
abbrev Registry := List OptDesc

/-- Modelled from the spec: a declared option table is a sequence of entries,
each either a plain descriptor or a nested sub-table with a heading
(`OPT_SUBTABLE`); the `OPT_END` terminator of the C array is the end of the
list. -/
inductive TableEntry where
  | entry (d : OptDesc)
  | sub (t : List TableEntry) (heading : Option Str)

/-- Classification of one argv token, from spec section 4.2. -/
inductive TokenClass where
  | endOfOpts
  | longTok (name : Str) (inlineVal : Option Str)
  | shortCluster (chars : List Char)
  | positional
deriving DecidableEq

/-- Parse-time error kinds, from spec section 7. -/
inductive OptError where
  | unrecognized (name : Str)
  | unrecognizedShort (c : Char)
  | ambiguous (name : Str) (cands : List Str)
  | missingArg (name : Str)
  | callbackFail (msg : Str)
deriving DecidableEq

/-- A callback invocation: which registry entry was dispatched and, for
argument-taking options, the argument text it received. -/
inductive Event where
  | evNoArg (i : Nat)
  | evArg (i : Nat) (v : Str)
deriving DecidableEq

/-- Result of long-name matching. -/
inductive MatchRes where
  | resolved (i : Nat) (d : OptDesc)
  | errUnrec
  | errAmbig (cands : List Str)

/-- Split a long-option token body at the first `=` into the name part and the
optional inline value (spec section 4.2). -/
def splitAtEq : Str → Str × Option Str
  | [] => ([], none)
  | c :: cs =>
    if c = '=' then ([], some cs)
    else
      let r := splitAtEq cs
      (c :: r.1, r.2)

/-- Modelled from the spec (section 4.2, Token Classifier, standing in for the
missing `opt.c`): `--` alone is the end-of-options marker, a token starting
with `--` of length greater than two is a long option split at the first `=`,
a token starting with a single `-` of length greater than one is a
short-option cluster, and anything else is positional. -/
def classify (tok : Str) : TokenClass :=
  match tok with
  | ['-', '-'] => .endOfOpts
  | '-' :: '-' :: c :: cs =>
    let r := splitAtEq (c :: cs)
    .longTok r.1 r.2
  | '-' :: c :: cs => .shortCluster (c :: cs)
  | _ => .positional

/-- First registry entry whose long name is exactly `n`, with its index. -/
def findExact (reg : Registry) (n : Str) : Option (Nat × OptDesc) :=
  reg.enum.find? fun p => p.2.longName = some n

/-- Registry entries (with indices) whose long name has the token text `n` as
an initial segment. -/
def candidatesFor (reg : Registry) (n : Str) : List (Nat × OptDesc) :=
  reg.enum.filter fun p =>
    match p.2.longName with
    | some m => n.isPrefixOf m
    | none => false

/-- Modelled from the spec (section 4.3, Matcher, standing in for the missing
`opt.c`): long-name resolution first attempts an exact match against every
registered long name; if none, it collects all registered long names the token
text begins, failing with an unrecognized-option error on zero candidates,
resolving on exactly one, and failing with an ambiguous-option error naming
the candidates on two or more. -/
def matchLong (reg : Registry) (n : Str) : MatchRes :=
  match findExact reg n with
  | some p => .resolved p.1 p.2
  | none =>
    match candidatesFor reg n with
    | [] => .errUnrec
    | [p] => .resolved p.1 p.2
    | cs => .errAmbig (cs.filterMap fun p => p.2.longName)

/-- Modelled from the spec (section 4.3): short-name resolution is exact
single-character match, returning the first matching entry and its index. -/
def matchShort (reg : Registry) (c : Char) : Option (Nat × OptDesc) :=
  reg.enum.find? fun p => p.2.shortName = some c

/-- Message built by `opt_invalid_argument` in `src/ccan/opt/opt.h` (line 200)
for an argument a callback rejected. -/
def invalidArg (v : Str) : Str :=
  ("Invalid argument ").toList ++ v

/-- Modelled from the spec (sections 4.3 and 4.4, standing in for the missing
`opt.c`): process a short-option cluster left to right against `next`, the
following argv slot if any.  Each no-argument option consumes its character
and processing continues in the same token; an argument-taking option consumes
the whole remainder of the token as its inline argument when characters
remain, and otherwise the next argv slot, ending the cluster either way.
Returns whether the next slot was consumed, or the first error, together with
the callback invocations made. -/
def runCluster (reg : Registry) (chars : List Char) (next : Option Str) :
    Except OptError Bool × List Event :=
  match chars with
  | [] => (.ok false, [])
  | c :: cs =>
    match matchShort reg c with
    | none => (.error (.unrecognizedShort c), [])
    | some p =>
      match p.2.arity with
      | .noArg =>
        match p.2.cbNo with
        | some msg => (.error (.callbackFail msg), [.evNoArg p.1])
        | none =>
          let r := runCluster reg cs next
          (r.1, .evNoArg p.1 :: r.2)
      | .hasArg =>
        match cs with
        | _ :: _ =>
          ((if p.2.cbArg cs then .ok false
            else .error (.callbackFail (invalidArg cs))), [.evArg p.1 cs])
        | [] =>
          match next with
          | none => (.error (.missingArg [c]), [])
          | some v =>
            ((if p.2.cbArg v then .ok true
              else .error (.callbackFail (invalidArg v))), [.evArg p.1 v])

/-- Modelled from the spec (sections 4.2-4.4, standing in for the missing
`opt.c`): one pass over the argument vector.  Returns either the residual
positional arguments in their original order or the first error, together
with the sequence of callback invocations that were made before the scan
ended. -/
def parseLoop (reg : Registry) (args : List Str) :
    Except OptError (List Str) × List Event :=
  match args with
  | [] => (.ok [], [])
  | tok :: rest =>
    match classify tok with
    | .endOfOpts => (.ok rest, [])
    | .positional =>
      let r := parseLoop reg rest
      (r.1.map fun ps => tok :: ps, r.2)
    | .longTok n inlineVal =>
      match matchLong reg n with
      | .errUnrec => (.error (.unrecognized n), [])
      | .errAmbig cands => (.error (.ambiguous n cands), [])
      | .resolved i d =>
        match d.arity with
        | .noArg =>
          match d.cbNo with
          | some msg => (.error (.callbackFail msg), [.evNoArg i])
          | none =>
            let r := parseLoop reg rest
            (r.1, .evNoArg i :: r.2)
        | .hasArg =>
          match inlineVal with
          | some v =>
            if d.cbArg v then
              let r := parseLoop reg rest
              (r.1, .evArg i v :: r.2)
            else (.error (.callbackFail (invalidArg v)), [.evArg i v])
          | none =>
            match rest with
            | [] => (.error (.missingArg n), [])
            | v :: rest2 =>
              if d.cbArg v then
                let r := parseLoop reg rest2
                (r.1, .evArg i v :: r.2)
              else (.error (.callbackFail (invalidArg v)), [.evArg i v])
    | .shortCluster cs =>
      match runCluster reg cs rest.head? with
      | (.error e, evs) => (.error e, evs)
      | (.ok true, evs) =>
        match rest with
        | [] => (.ok [], evs)
        | _ :: rest2 =>
          let r := parseLoop reg rest2
          (r.1, evs ++ r.2)
      | (.ok false, evs) =>
        let r := parseLoop reg rest
        (r.1, evs ++ r.2)

/-- Modelled from the spec (section 7): render one parse error as a single
descriptive message. -/
def renderError : OptError → Str
  | .unrecognized n => ("unrecognized option --").toList ++ n
  | .unrecognizedShort c => ("unrecognized option -").toList ++ [c]
  | .ambiguous n cands =>
    ("ambiguous option --").toList ++ n ++ (", could be:").toList
      ++ (cands.map fun m => (" --").toList ++ m).foldl (fun a b => a ++ b) []
  | .missingArg n => ("option requires an argument: ").toList ++ n
  | .callbackFail msg => msg

/-- Result of `opt_parse` (declared at `src/ccan/opt/opt.h` line 184): the
boolean return value, the compacted argument vector of residual positionals,
the messages handed to the caller-supplied error-reporting function, the
callback invocations made, and the parse error if any. -/
structure ParseResult where
  ok : Bool
  positionals : List Str
  logged : List Str
  events : List Event
  err : Option OptError
deriving DecidableEq

/-- Modelled from the spec (section 6, parse entry point, standing in for the
missing `opt.c`): run the scan; on success report the residual positionals
and log nothing, on failure log exactly one rendered message and report
failure.  The process is never terminated: the function is total. -/
def opt_parse (reg : Registry) (args : List Str) : ParseResult :=
  match parseLoop reg args with
  | (.ok ps, evs) => ⟨true, ps, [], evs, none⟩
  | (.error e, evs) => ⟨false, [], [renderError e], evs, some e⟩

/-- Well-formedness of one descriptor as documented in `src/ccan/opt/opt.h`
(lines 36-38 and 132): at least one of the long and short names must be set. -/
def wellFormedEntry (d : OptDesc) : Bool :=
  d.longName.isSome || d.shortName.isSome

/-- Stated from the claim for comparison with `wellFormedEntry`: exactly one
of the long and short names is set. -/
def exactlyOneName (d : OptDesc) : Bool :=
  xor d.longName.isSome d.shortName.isSome

/-- Modelled from the spec (section 4.1): a new descriptor conflicts with the
registry when it repeats a non-absent long name or a non-absent short name. -/
def nameConflict (reg : Registry) (d : OptDesc) : Bool :=
  reg.any fun e =>
    (d.longName.isSome && e.longName == d.longName)
      || (d.shortName.isSome && e.shortName == d.shortName)

/-- Modelled from the spec (section 4.1, standing in for the missing
`_opt_register` body declared at `src/ccan/opt/opt.h` lines 261-264): append
one descriptor to the registry, failing at registration time when it is
malformed or would violate name uniqueness. -/
def addDesc (reg : Registry) (d : OptDesc) : Option Registry :=
  if wellFormedEntry d && !nameConflict reg d then some (reg ++ [d]) else none

/-- Modelled from the spec (section 4.1): depth-first flattening of a declared
table, expanding each sub-table in place, preserving declaration order. -/
def flattenTable : List TableEntry → List OptDesc
  | [] => []
  | .entry d :: ts => d :: flattenTable ts
  | .sub t _ :: ts => flattenTable t ++ flattenTable ts

/-- Modelled from the spec (section 4.1, `opt_register_table` declared at
`src/ccan/opt/opt.h` line 115): register every flattened entry of one declared
table, in order, failing on the first entry that fails. -/
def registerTable (reg : Registry) (t : List TableEntry) : Option Registry :=
  (flattenTable t).foldlM addDesc reg

/-- Modelled from the spec (section 4.1): a whole sequence of registration
calls starting from the empty registry. -/
def registerAll (tables : List (List TableEntry)) : Option Registry :=
  tables.foldlM registerTable []

/-- The uniqueness invariant from spec section 3: no two registry entries
share a present long name, and no two share a present short name. -/
def namesUnique (reg : Registry) : Prop :=
  reg.Pairwise fun a b =>
    (∀ s, a.longName = some s → b.longName ≠ some s)
      ∧ (∀ c, a.shortName = some c → b.shortName ≠ some c)

/-- Descriptor registering the long option `--foobar`. -/
def foobarDesc : OptDesc := ⟨some ("foobar").toList, none, .noArg, none, fun _ => true⟩

/-- Descriptor registering the long option `--foobaz`. -/
def foobazDesc : OptDesc := ⟨some ("foobaz").toList, none, .noArg, none, fun _ => true⟩

/-- Registry with the two long options `--foobar` and `--foobaz`. -/
def fbReg : Registry := [foobarDesc, foobazDesc]

/-- Descriptor registering the short no-argument option `-x`. -/
def xDesc : OptDesc := ⟨none, some 'x', .noArg, none, fun _ => true⟩

/-- Registry with the single short option `-x`. -/
def xReg : Registry := [xDesc]

/-- Descriptor registering the short argument-taking option `-a`. -/
def aDesc : OptDesc := ⟨none, some 'a', .hasArg, none, fun _ => true⟩

/-- Registry with the single short argument-taking option `-a`. -/
def aReg : Registry := [aDesc]

/-- Argument-taking descriptor `--first` whose callback rejects the argument
text `bad`. -/
def firstDesc : OptDesc :=
  ⟨some ("first").toList, none, .hasArg, none, fun v => !(v == ("bad").toList)⟩

/-- Argument-taking descriptor `--second` whose callback always succeeds. -/
def secondDesc : OptDesc := ⟨some ("second").toList, none, .hasArg, none, fun _ => true⟩

/-- Registry with the two argument-taking long options `--first` and
`--second`. -/
def twoReg : Registry := [firstDesc, secondDesc]

/-- The `verbose` entry of the example table documented at
`src/ccan/opt/opt.h` lines 102-110: both the long name `verbose` and the
short name `v` are set on the same descriptor. -/
def verboseDesc : OptDesc := ⟨some ("verbose").toList, some 'v', .noArg, none, fun _ => true⟩

/-- Descriptor used to exercise duplicate registration. -/
def dupDesc : OptDesc := ⟨some ("foo").toList, none, .noArg, none, fun _ => true⟩

/-- Argument-taking long-option descriptor `--name`. -/
def nameDesc : OptDesc := ⟨some ("name").toList, none, .hasArg, none, fun _ => true⟩

/-- Registry with the single argument-taking long option `--name`. -/
def nameReg : Registry := [nameDesc]

/-- Long-option descriptor used in the flattening example. -/
def tblA : OptDesc := ⟨some ("aa").toList, none, .noArg, none, fun _ => true⟩

/-- Short-option descriptor used in the flattening example. -/
def tblB : OptDesc := ⟨none, some 'b', .noArg, none, fun _ => true⟩

/-- Short-option descriptor used in the flattening example. -/
def tblC : OptDesc := ⟨none, some 'c', .noArg, none, fun _ => true⟩

end Opt

/-! ## String helper theorems -/

open StrTalloc

theorem strcspn_le (s delims : Str) : strcspn s delims ≤ s.length := by
  induction s with
  | nil => simp [strcspn]
  | cons a t ih =>
    by_cases ha : a ∈ delims
    · simp [strcspn, ha]
    · simp only [strcspn, ha, if_false, List.length_cons]
      omega

theorem take_strcspn_no_delim (s delims : Str) :
    ∀ c ∈ s.take (strcspn s delims), c ∉ delims := by
  induction s with
  | nil => simp
  | cons a t ih =>
    by_cases ha : a ∈ delims
    · simp [strcspn, ha]
    · simp only [strcspn, ha, if_false, List.take_succ_cons, List.mem_cons]
      intro c hc
      rcases hc with hc | hc
      · subst hc; exact ha
      · exact ih c hc

theorem strsplitRun_nil (delims : Str) : strsplitRun [] delims = ([], 0) := by
  rw [strsplitRun]
  simp

theorem strsplitRun_num_eq_length (s delims : Str) :
    (strsplitRun s delims).2 = (strsplitRun s delims).1.length := by
  induction s, delims using strsplitRun.induct with
  | case1 delims => rw [strsplitRun]; simp
  | case2 s delims h len rest rest2 ih =>
    rw [strsplitRun, dif_neg h]
    unfold rest2 rest len at ih
    simp only [dite_eq_ite] at ih
    simp only [List.length_cons]
    omega

theorem strsplitRun_no_delim (s delims : Str) :
    ∀ p ∈ (strsplitRun s delims).1, ∀ c ∈ p, c ∉ delims := by
  induction s, delims using strsplitRun.induct with
  | case1 delims => rw [strsplitRun]; simp
  | case2 s delims h len rest rest2 ih =>
    rw [strsplitRun, dif_neg h]
    unfold rest2 rest len at ih
    simp only [dite_eq_ite] at ih
    intro p hp
    simp only [List.mem_cons] at hp
    rcases hp with hp | hp
    · subst hp; exact take_strcspn_no_delim s delims
    · exact ih p hp

theorem strjoin_foldl (delim : Str) :
    ∀ (l : List Str) (acc : Str),
      l.foldl (fun ret s => ret ++ s ++ delim) acc = acc ++ joinSpec l delim := by
  intro l
  induction l with
  | nil => intro acc; simp [joinSpec]
  | cons s rest ih =>
    intro acc
    rw [List.foldl_cons, ih]
    simp [joinSpec, List.append_assoc]

/-- Claim C10: strjoin returns the concatenation of the elements with the
delimiter appended after every element including the last, and joining the
empty array yields the empty string. -/
theorem C10_strjoin_delim_after_every_element :
    ∀ (strings : List Str) (delim : Str),
      strjoin strings delim = joinSpec strings delim
        ∧ strjoin [] delim = [] := by
  intro strings delim
  constructor
  · have h := strjoin_foldl delim strings []
    simpa [strjoin] using h
  · rfl

/-- Claim C9: the array returned by strsplit is terminated by a NULL entry,
every entry before the terminator is a non-NULL substring containing no
delimiter character, the nump out-parameter is set to the number of
substrings preceding the terminator, and splitting the empty string yields
zero substrings. -/
theorem C9_strsplit_contract :
    ∀ (s delims : Str),
      ((strsplit s delims).1.getLast? = some none)
      ∧ (∀ o ∈ (strsplit s delims).1.dropLast, o ≠ none)
      ∧ ((strsplit s delims).2 = (strsplit s delims).1.dropLast.length)
      ∧ (∀ p, some p ∈ (strsplit s delims).1 → ∀ c ∈ p, c ∉ delims)
      ∧ (strsplit [] delims = ([none], 0)) := by
  intro s delims
  refine ⟨?_, ?_, ?_, ?_, ?_⟩
  · simp [strsplit, List.getLast?_concat]
  · simp only [strsplit, List.dropLast_concat]
    intro o ho
    simp only [List.mem_map] at ho
    rcases ho with ⟨p, hp, rfl⟩
    simp
  · simp only [strsplit, List.dropLast_concat, List.length_map]
    exact strsplitRun_num_eq_length s delims
  · intro p hp
    have hp2 : p ∈ (strsplitRun s delims).1 := by
      simp only [strsplit, List.mem_append, List.mem_map, List.mem_singleton] at hp
      rcases hp with ⟨q, hq, hqp⟩ | hbad
      · injection hqp with h
        exact h ▸ hq
      · exact Option.noConfusion hbad
    exact strsplitRun_no_delim s delims p hp2
  · simp [strsplit, strsplitRun_nil]

/-- Witness for C9 at the concrete input `a,b` split on `,`. -/
theorem C9_strsplit_contract_witness :
    ('a' ∉ [',']) ∧ (some (['a'] : Str) ≠ none) := by
  have hsplit : strsplit ['a', ',', 'b'] [','] = ([some ['a'], some ['b'], none], 2) := by
    simp [strsplit, strsplitRun, strcspn, strspn]
  have h := C9_strsplit_contract ['a', ',', 'b'] [',']
  constructor
  · exact h.2.2.2.1 ['a'] (by rw [hsplit]; simp) 'a' (by simp)
  · exact h.2.1 (some ['a']) (by rw [hsplit]; simp)

/-! ## Option parser theorems -/

open Opt

theorem splitAtEq_no_eq (n : Str) (h : '=' ∉ n) : splitAtEq n = (n, none) := by
  induction n with
  | nil => rfl
  | cons c cs ih =>
    simp only [List.mem_cons, not_or] at h
    obtain ⟨h1, h2⟩ := h
    have hcne : ¬ c = '=' := fun hh => h1 hh.symm
    simp only [splitAtEq, if_neg hcne]
    rw [ih h2]

theorem splitAtEq_with_eq (n v : Str) (h : '=' ∉ n) :
    splitAtEq (n ++ '=' :: v) = (n, some v) := by
  induction n with
  | nil => simp [splitAtEq]
  | cons c cs ih =>
    simp only [List.mem_cons, not_or] at h
    obtain ⟨h1, h2⟩ := h
    have hcne : ¬ c = '=' := fun hh => h1 hh.symm
    rw [List.cons_append]
    simp only [splitAtEq, if_neg hcne]
    rw [ih h2]

theorem classify_long_plain (n : Str) (hne : n ≠ []) (he : '=' ∉ n) :
    classify ('-' :: '-' :: n) = .longTok n none := by
  cases n with
  | nil => exact absurd rfl hne
  | cons c cs =>
    simp only [classify]
    rw [splitAtEq_no_eq (c :: cs) he]

theorem classify_long_inline (n v : Str) (hne : n ≠ []) (he : '=' ∉ n) :
    classify ('-' :: '-' :: (n ++ '=' :: v)) = .longTok n (some v) := by
  cases n with
  | nil => exact absurd rfl hne
  | cons c cs =>
    have hs := splitAtEq_with_eq (c :: cs) v he
    rw [List.cons_append] at hs
    rw [List.cons_append]
    simp only [classify, hs]

theorem parseLoop_long_noArg_fail (reg : Registry) (n : Str) (i : Nat) (d : OptDesc)
    (msg : Str) (rest : List Str)
    (hm : matchLong reg n = .resolved i d) (ha : d.arity = .noArg)
    (hcb : d.cbNo = some msg) (hne : n ≠ []) (he : '=' ∉ n) :
    parseLoop reg (('-' :: '-' :: n) :: rest)
      = (.error (.callbackFail msg), [.evNoArg i]) := by
  rw [parseLoop.eq_def]
  simp only [classify_long_plain n hne he, hm, ha, hcb]

theorem parseLoop_long_noArg_ok (reg : Registry) (n : Str) (i : Nat) (d : OptDesc)
    (rest : List Str)
    (hm : matchLong reg n = .resolved i d) (ha : d.arity = .noArg)
    (hcb : d.cbNo = none) (hne : n ≠ []) (he : '=' ∉ n) :
    parseLoop reg (('-' :: '-' :: n) :: rest)
      = ((parseLoop reg rest).1, .evNoArg i :: (parseLoop reg rest).2) := by
  rw [parseLoop.eq_def]
  simp only [classify_long_plain n hne he, hm, ha, hcb]

theorem parseLoop_long_inline (reg : Registry) (n : Str) (i : Nat) (d : OptDesc)
    (v : Str) (rest : List Str)
    (hm : matchLong reg n = .resolved i d) (ha : d.arity = .hasArg)
    (hne : n ≠ []) (he : '=' ∉ n) :
    parseLoop reg (('-' :: '-' :: (n ++ '=' :: v)) :: rest)
      = (if d.cbArg v then ((parseLoop reg rest).1, .evArg i v :: (parseLoop reg rest).2)
         else (.error (.callbackFail (invalidArg v)), [.evArg i v])) := by
  rw [parseLoop.eq_def]
  simp only [classify_long_inline n v hne he, hm, ha]

theorem parseLoop_long_nextSlot (reg : Registry) (n : Str) (i : Nat) (d : OptDesc)
    (v : Str) (rest : List Str)
    (hm : matchLong reg n = .resolved i d) (ha : d.arity = .hasArg)
    (hne : n ≠ []) (he : '=' ∉ n) :
    parseLoop reg (('-' :: '-' :: n) :: v :: rest)
      = (if d.cbArg v then ((parseLoop reg rest).1, .evArg i v :: (parseLoop reg rest).2)
         else (.error (.callbackFail (invalidArg v)), [.evArg i v])) := by
  rw [parseLoop.eq_def]
  simp only [classify_long_plain n hne he, hm, ha]

theorem parseLoop_long_missing (reg : Registry) (n : Str) (i : Nat) (d : OptDesc)
    (hm : matchLong reg n = .resolved i d) (ha : d.arity = .hasArg)
    (hne : n ≠ []) (he : '=' ∉ n) :
    parseLoop reg [('-' :: '-' :: n)] = (.error (.missingArg n), []) := by
  rw [parseLoop.eq_def]
  simp only [classify_long_plain n hne he, hm, ha]

theorem parseLoop_endOfOpts (reg : Registry) (rest : List Str) :
    parseLoop reg (['-', '-'] :: rest) = (.ok rest, []) := by
  rw [parseLoop.eq_def]
  simp [classify]


theorem runCluster_noArg (reg : Registry) (c : Char) (cs : List Char)
    (next : Option Str) (i : Nat) (d : OptDesc)
    (hm : matchShort reg c = some (i, d)) (ha : d.arity = .noArg)
    (hcb : d.cbNo = none) :
    runCluster reg (c :: cs) next
      = ((runCluster reg cs next).1, .evNoArg i :: (runCluster reg cs next).2) := by
  simp only [runCluster, hm, ha, hcb]

theorem runCluster_noArg_fail (reg : Registry) (c : Char) (cs : List Char)
    (next : Option Str) (i : Nat) (d : OptDesc) (msg : Str)
    (hm : matchShort reg c = some (i, d)) (ha : d.arity = .noArg)
    (hcb : d.cbNo = some msg) :
    runCluster reg (c :: cs) next = (.error (.callbackFail msg), [.evNoArg i]) := by
  simp only [runCluster, hm, ha, hcb]

theorem runCluster_hasArg_inline (reg : Registry) (c : Char) (cs : List Char)
    (next : Option Str) (i : Nat) (d : OptDesc)
    (hm : matchShort reg c = some (i, d)) (ha : d.arity = .hasArg)
    (hcs : cs ≠ []) :
    runCluster reg (c :: cs) next
      = ((if d.cbArg cs then .ok false else .error (.callbackFail (invalidArg cs))),
         [.evArg i cs]) := by
  cases cs with
  | nil => exact absurd rfl hcs
  | cons a as => simp only [runCluster, hm, ha]

theorem runCluster_hasArg_nextSlot (reg : Registry) (c : Char) (v : Str)
    (i : Nat) (d : OptDesc)
    (hm : matchShort reg c = some (i, d)) (ha : d.arity = .hasArg) :
    runCluster reg [c] (some v)
      = ((if d.cbArg v then .ok true else .error (.callbackFail (invalidArg v))),
         [.evArg i v]) := by
  simp only [runCluster, hm, ha]

theorem runCluster_hasArg_missing (reg : Registry) (c : Char)
    (i : Nat) (d : OptDesc)
    (hm : matchShort reg c = some (i, d)) (ha : d.arity = .hasArg) :
    runCluster reg [c] none = (.error (.missingArg [c]), []) := by
  simp only [runCluster, hm, ha]

theorem addDesc_eq_some {reg : Registry} {d : OptDesc} {reg2 : Registry}
    (h : addDesc reg d = some reg2) :
    reg2 = reg ++ [d] ∧ wellFormedEntry d = true ∧ nameConflict reg d = false := by
  unfold addDesc at h
  split at h
  next hcond =>
    simp only [Option.some.injEq] at h
    simp only [Bool.and_eq_true, Bool.not_eq_true'] at hcond
    exact ⟨h.symm, hcond.1, hcond.2⟩
  next hcond => exact Option.noConfusion h

theorem addDesc_conflict_none (reg : Registry) (d : OptDesc)
    (h : nameConflict reg d = true) : addDesc reg d = none := by
  unfold addDesc
  rw [h]
  simp

theorem namesUnique_append {reg : Registry} {d : OptDesc}
    (hu : namesUnique reg) (hc : nameConflict reg d = false) :
    namesUnique (reg ++ [d]) := by
  unfold namesUnique at hu ⊢
  rw [List.pairwise_append]
  refine ⟨hu, List.pairwise_singleton _ _, ?_⟩
  intro a ha b hb
  simp only [List.mem_singleton] at hb
  subst hb
  unfold nameConflict at hc
  rw [List.any_eq_false] at hc
  have hpa := hc a ha
  constructor
  · intro s hs hds
    apply hpa
    simp [hs, hds]
  · intro ch hs hds
    apply hpa
    simp [hs, hds]

theorem foldlM_addDesc_inv :
    ∀ (l : List OptDesc) (reg reg2 : Registry),
      namesUnique reg → (∀ e ∈ reg, wellFormedEntry e = true) →
      l.foldlM addDesc reg = some reg2 →
      namesUnique reg2 ∧ ∀ e ∈ reg2, wellFormedEntry e = true := by
  intro l
  induction l with
  | nil =>
    intro reg reg2 hu hw h
    simp only [List.foldlM_nil] at h
    cases h
    exact ⟨hu, hw⟩
  | cons d l ih =>
    intro reg reg2 hu hw h
    rw [List.foldlM_cons] at h
    cases ha : addDesc reg d with
    | none => rw [ha] at h; simp at h
    | some reg1 =>
      rw [ha] at h
      have h2 : l.foldlM addDesc reg1 = some reg2 := h
      obtain ⟨he, hwd, hcf⟩ := addDesc_eq_some ha
      subst he
      refine ih (reg ++ [d]) reg2 (namesUnique_append hu hcf) ?_ h2
      intro e hmem
      rcases List.mem_append.mp hmem with hmem | hmem
      · exact hw e hmem
      · rw [List.mem_singleton] at hmem
        subst hmem
        exact hwd

theorem registerTable_inv {reg : Registry} {t : List TableEntry} {reg2 : Registry}
    (hu : namesUnique reg) (hw : ∀ e ∈ reg, wellFormedEntry e = true)
    (h : registerTable reg t = some reg2) :
    namesUnique reg2 ∧ ∀ e ∈ reg2, wellFormedEntry e = true :=
  foldlM_addDesc_inv (flattenTable t) reg reg2 hu hw h

theorem registerAll_inv :
    ∀ (ts : List (List TableEntry)) (reg : Registry),
      registerAll ts = some reg →
      namesUnique reg ∧ ∀ e ∈ reg, wellFormedEntry e = true := by
  have haux : ∀ (ts : List (List TableEntry)) (reg0 reg : Registry),
      namesUnique reg0 → (∀ e ∈ reg0, wellFormedEntry e = true) →
      ts.foldlM registerTable reg0 = some reg →
      namesUnique reg ∧ ∀ e ∈ reg, wellFormedEntry e = true := by
    intro ts
    induction ts with
    | nil =>
      intro reg0 reg hu hw h
      simp only [List.foldlM_nil] at h
      cases h
      exact ⟨hu, hw⟩
    | cons t ts ih =>
      intro reg0 reg hu hw h
      rw [List.foldlM_cons] at h
      cases ha : registerTable reg0 t with
      | none => rw [ha] at h; simp at h
      | some reg1 =>
        rw [ha] at h
        have h2 : ts.foldlM registerTable reg1 = some reg := h
        obtain ⟨hu1, hw1⟩ := registerTable_inv hu hw ha
        exact ih reg1 reg hu1 hw1 h2
  intro ts reg h
  exact haux ts [] reg (List.Pairwise.nil) (by intro e he; cases he) h

theorem parseLoop_ok_sublist (reg : Registry) (args : List Str) :
    ∀ ps evs, parseLoop reg args = (.ok ps, evs) → ps.Sublist args := by
  induction args using parseLoop.induct reg with
  | case1 =>
    intro ps evs h
    simp only [parseLoop, Prod.mk.injEq, Except.ok.injEq] at h
    rw [← h.1]
  | case2 v rest2 hc =>
    intro ps evs h
    simp only [parseLoop, hc, Prod.mk.injEq, Except.ok.injEq] at h
    rw [← h.1]
    exact List.sublist_cons_self v rest2
  | case3 v rest2 hc ih =>
    intro ps evs h
    simp only [parseLoop, hc] at h
    cases hr : parseLoop reg rest2 with
    | mk r1 e1 =>
      rw [hr] at h
      cases r1 with
      | error e => simp [Except.map] at h
      | ok ps2 =>
        simp only [Except.map, Prod.mk.injEq, Except.ok.injEq] at h
        rw [← h.1]
        exact (ih ps2 e1 hr).cons₂ v
  | case4 v rest2 n inlineVal hc hm =>
    intro ps evs h
    simp only [parseLoop, hc, hm] at h
    simp at h
  | case5 v rest2 n inlineVal hc cands hm =>
    intro ps evs h
    simp only [parseLoop, hc, hm] at h
    simp at h
  | case6 v rest2 n inlineVal hc i d hm ha m hcb =>
    intro ps evs h
    simp only [parseLoop, hc, hm, ha, hcb] at h
    simp at h
  | case7 v rest2 n inlineVal hc i d hm ha hcb ih =>
    intro ps evs h
    simp only [parseLoop, hc, hm, ha, hcb] at h
    cases hr : parseLoop reg rest2 with
    | mk r1 e1 =>
      rw [hr] at h
      cases r1 with
      | error e => simp at h
      | ok ps2 =>
        simp only [Prod.mk.injEq, Except.ok.injEq] at h
        rw [← h.1]
        exact (ih ps2 e1 hr).cons v
  | case8 v rest2 n i d hm ha m hcb hc ih =>
    intro ps evs h
    simp only [parseLoop, hc, hm, ha, hcb, if_true] at h
    cases hr : parseLoop reg rest2 with
    | mk r1 e1 =>
      rw [hr] at h
      cases r1 with
      | error e => simp at h
      | ok ps2 =>
        simp only [Prod.mk.injEq, Except.ok.injEq] at h
        rw [← h.1]
        exact (ih ps2 e1 hr).cons v
  | case9 v rest2 n i d hm ha m hcb hc =>
    intro ps evs h
    simp only [parseLoop, hc, hm, ha, hcb, if_false] at h
    simp at h
  | case10 v n i d hm ha hc =>
    intro ps evs h
    simp only [parseLoop, hc, hm, ha] at h
    simp at h
  | case11 v n i d hm ha v1 rest2 hcb hc ih =>
    intro ps evs h
    simp only [parseLoop, hc, hm, ha, hcb, if_true] at h
    cases hr : parseLoop reg rest2 with
    | mk r1 e1 =>
      rw [hr] at h
      cases r1 with
      | error e => simp at h
      | ok ps2 =>
        simp only [Prod.mk.injEq, Except.ok.injEq] at h
        rw [← h.1]
        exact ((ih ps2 e1 hr).cons v1).cons v
  | case12 v n i d hm ha v1 rest2 hcb hc =>
    intro ps evs h
    simp only [parseLoop, hc, hm, ha, hcb, if_false] at h
    simp at h
  | case13 v rest2 cs hc e evs2 hrc =>
    intro ps evs h
    simp only [parseLoop, hc, hrc] at h
    simp at h
  | case14 v cs hc evs2 hrc =>
    intro ps evs h
    simp only [parseLoop, hc, hrc, Prod.mk.injEq, Except.ok.injEq] at h
    rw [← h.1]
    exact List.nil_sublist _
  | case15 v cs hc evs2 v1 rest2 hrc ih =>
    intro ps evs h
    simp only [parseLoop, hc, hrc] at h
    cases hr : parseLoop reg rest2 with
    | mk r1 e1 =>
      rw [hr] at h
      cases r1 with
      | error e => simp at h
      | ok ps2 =>
        simp only [Prod.mk.injEq, Except.ok.injEq] at h
        rw [← h.1]
        exact ((ih ps2 e1 hr).cons v1).cons v
  | case16 v rest2 cs hc evs2 hrc ih =>
    intro ps evs h
    simp only [parseLoop, hc, hrc] at h
    cases hr : parseLoop reg rest2 with
    | mk r1 e1 =>
      rw [hr] at h
      cases r1 with
      | error e => simp at h
      | ok ps2 =>
        simp only [Prod.mk.injEq, Except.ok.injEq] at h
        rw [← h.1]
        exact (ih ps2 e1 hr).cons v



/-- Claim C1: when opt_parse succeeds, the reported argument vector holds only
the residual positional tokens, an order-preserving selection from the input
vector, and nothing is logged; when it fails, the caller-supplied
error-reporting function receives exactly one message.  The function is total:
it never terminates the process. -/
theorem C1_parse_success_positionals_failure_single_message :
    ∀ (reg : Registry) (args : List Str),
      ((opt_parse reg args).ok = true →
        (opt_parse reg args).positionals.Sublist args
          ∧ (opt_parse reg args).logged = [])
      ∧ ((opt_parse reg args).ok = false →
        (opt_parse reg args).logged.length = 1) := by
  intro reg args
  unfold opt_parse
  cases hr : parseLoop reg args with
  | mk r1 e1 =>
    cases r1 with
    | ok ps =>
      refine ⟨fun _ => ⟨parseLoop_ok_sublist reg args ps e1 hr, rfl⟩,
        fun hfalse => Bool.noConfusion hfalse⟩
    | error e =>
      exact ⟨fun htrue => Bool.noConfusion htrue, fun _ => rfl⟩

/-- Witness for C1 at a concrete succeeding parse and a concrete failing
parse. -/
theorem C1_parse_contract_witness :
    ((opt_parse xReg [['a'], ['-', 'x'], ['b']]).positionals.Sublist
        [['a'], ['-', 'x'], ['b']]
      ∧ (opt_parse xReg [['a'], ['-', 'x'], ['b']]).logged = [])
    ∧ (opt_parse fbReg [['-', '-', 'f', 'o', 'o']]).logged.length = 1 := by
  refine ⟨(C1_parse_success_positionals_failure_single_message xReg _).1 (by decide),
    (C1_parse_success_positionals_failure_single_message fbReg _).2 (by decide)⟩

/-- Claim C2: long-name resolution tries an exact match first; only with no
exact match are the registered long names collected that the token text
begins, with zero candidates unrecognized, one resolved and two or more
ambiguous; with `--foobar` and `--foobaz` registered, `--foo` and `--fooba`
fail as ambiguous while `--foobar` succeeds. -/
theorem C2_long_resolution_exact_then_unambiguous :
    (∀ (reg : Registry) (n : Str),
      (∀ i d, findExact reg n = some (i, d) → matchLong reg n = .resolved i d)
      ∧ (findExact reg n = none → candidatesFor reg n = [] →
          matchLong reg n = .errUnrec)
      ∧ (∀ i d, findExact reg n = none → candidatesFor reg n = [(i, d)] →
          matchLong reg n = .resolved i d)
      ∧ (findExact reg n = none → 2 ≤ (candidatesFor reg n).length →
          matchLong reg n
            = .errAmbig ((candidatesFor reg n).filterMap fun p => p.2.longName)))
    ∧ (opt_parse fbReg [('-' :: '-' :: ("foo").toList)]).err
        = some (.ambiguous (("foo").toList) [("foobar").toList, ("foobaz").toList])
    ∧ (opt_parse fbReg [('-' :: '-' :: ("fooba").toList)]).err
        = some (.ambiguous (("fooba").toList) [("foobar").toList, ("foobaz").toList])
    ∧ (opt_parse fbReg [('-' :: '-' :: ("foobar").toList)]).ok = true := by
  refine ⟨?_, by decide, by decide, by decide⟩
  intro reg n
  refine ⟨?_, ?_, ?_, ?_⟩
  · intro i d hf
    simp only [matchLong, hf]
  · intro hf h0
    simp only [matchLong, hf, h0]
  · intro i d hf h1
    simp only [matchLong, hf, h1]
  · intro hf h2
    rcases hx : candidatesFor reg n with _ | ⟨p, _ | ⟨q, u⟩⟩
    · rw [hx] at h2; simp at h2
    · rw [hx] at h2; simp at h2
    · simp only [matchLong, hf, hx]

/-- Witness for C2: exact resolution of `--foobar` in the two-option
registry. -/
theorem C2_long_resolution_witness :
    matchLong fbReg (("foobar").toList) = .resolved 0 foobarDesc :=
  ((C2_long_resolution_exact_then_unambiguous.1 fbReg (("foobar").toList)).1
    0 foobarDesc rfl)

/-- Claim C3: a registered argument-taking long option receives its argument
exactly once, from the inline `=` form or from the next argv slot, and fails
with a missing-argument error when the option is the last token. -/
theorem C3_hasarg_long_value_forms :
    ∀ (reg : Registry) (n : Str) (i : Nat) (d : OptDesc) (v : Str),
      matchLong reg n = .resolved i d → d.arity = .hasArg → n ≠ [] → '=' ∉ n →
      ((parseLoop reg [('-' :: '-' :: (n ++ '=' :: v))]).2 = [.evArg i v]
        ∧ (parseLoop reg [('-' :: '-' :: n), v]).2 = [.evArg i v]
        ∧ parseLoop reg [('-' :: '-' :: n)] = (.error (.missingArg n), [])) := by
  intro reg n i d v hm ha hne he
  refine ⟨?_, ?_, ?_⟩
  · rw [parseLoop_long_inline reg n i d v [] hm ha hne he]
    cases hc : d.cbArg v <;> simp [hc, parseLoop]
  · rw [parseLoop_long_nextSlot reg n i d v [] hm ha hne he]
    cases hc : d.cbArg v <;> simp [hc, parseLoop]
  · exact parseLoop_long_missing reg n i d hm ha hne he

/-- Witness for C3 at the concrete option `--name` and value `VALUE`. -/
theorem C3_hasarg_long_witness :
    (parseLoop nameReg [('-' :: '-' :: (("name").toList ++ '=' :: ("VALUE").toList))]).2
        = [.evArg 0 (("VALUE").toList)]
    ∧ parseLoop nameReg [('-' :: '-' :: ("name").toList)]
        = (.error (.missingArg (("name").toList)), []) := by
  have h := C3_hasarg_long_value_forms nameReg (("name").toList) 0 nameDesc
    (("VALUE").toList) rfl rfl (by decide) (by decide)
  exact ⟨h.1, h.2.2⟩

/-- Claim C4: short clusters are resolved left to right; a no-argument short
option consumes only its character and processing continues in the token,
while an argument-taking short option consumes the whole token remainder as
inline argument when characters remain and otherwise the next argv slot,
ending the cluster; `-aVALUE` passes `VALUE` to the callback of `-a`. -/
theorem C4_short_cluster_left_to_right :
    (∀ (reg : Registry) (c : Char) (cs : List Char) (next : Option Str)
        (i : Nat) (d : OptDesc),
      matchShort reg c = some (i, d) →
      ((d.arity = .noArg → d.cbNo = none →
        runCluster reg (c :: cs) next
          = ((runCluster reg cs next).1, .evNoArg i :: (runCluster reg cs next).2))
      ∧ (d.arity = .hasArg → cs ≠ [] →
        runCluster reg (c :: cs) next
          = ((if d.cbArg cs then .ok false
              else .error (.callbackFail (invalidArg cs))), [.evArg i cs]))
      ∧ (d.arity = .hasArg → ∀ v, runCluster reg [c] (some v)
          = ((if d.cbArg v then .ok true
              else .error (.callbackFail (invalidArg v))), [.evArg i v]))))
    ∧ (opt_parse aReg [('-' :: 'a' :: ("VALUE").toList)]).events
        = [.evArg 0 (("VALUE").toList)]
    ∧ (opt_parse aReg [['-', 'a'], ("VALUE").toList]).events
        = [.evArg 0 (("VALUE").toList)] := by
  refine ⟨?_, by decide, by decide⟩
  intro reg c cs next i d hm
  exact ⟨fun ha hcb => runCluster_noArg reg c cs next i d hm ha hcb,
    fun ha hcs => runCluster_hasArg_inline reg c cs next i d hm ha hcs,
    fun ha v => runCluster_hasArg_nextSlot reg c v i d hm ha⟩

/-- Witness for C4 at the concrete cluster `-aVALUE`. -/
theorem C4_short_cluster_witness :
    runCluster aReg ('a' :: ("VALUE").toList) none
      = (.ok false, [.evArg 0 (("VALUE").toList)]) := by
  have h := (C4_short_cluster_left_to_right.1 aReg 'a' (("VALUE").toList)
    none 0 aDesc rfl).2.1 rfl (by decide)
  rw [h]
  rfl

/-- Claim C5: the bare token `--` ends option scanning, so every later token
is positional regardless of leading dashes; with `-x` registered, parsing
`-- -x` succeeds, invokes no callback, and keeps the literal token `-x`. -/
theorem C5_double_dash_ends_option_scan :
    (∀ (reg : Registry) (rest : List Str),
      parseLoop reg (['-', '-'] :: rest) = (.ok rest, []))
    ∧ opt_parse xReg [['-', '-'], ['-', 'x']]
        = ⟨true, [['-', 'x']], [], [], none⟩ := by
  exact ⟨parseLoop_endOfOpts, by decide⟩

/-- Claim C6: the first callback failure halts parsing at once: a no-argument
callback returning a message, or an argument-taking callback returning false,
produces a failure with exactly the events so far and no later invocation;
the returned message forms the error message and opt_parse returns false; with
two argument-taking options where the first rejects its value, the second
callback is never invoked. -/
theorem C6_first_callback_failure_halts :
    (∀ (reg : Registry) (n : Str) (i : Nat) (d : OptDesc) (msg : Str)
        (rest : List Str),
      matchLong reg n = .resolved i d → d.arity = .noArg → d.cbNo = some msg →
      n ≠ [] → '=' ∉ n →
      (parseLoop reg (('-' :: '-' :: n) :: rest)
          = (.error (.callbackFail msg), [.evNoArg i])
        ∧ (opt_parse reg (('-' :: '-' :: n) :: rest)).ok = false
        ∧ (opt_parse reg (('-' :: '-' :: n) :: rest)).logged = [msg]))
    ∧ (∀ (reg : Registry) (n : Str) (i : Nat) (d : OptDesc) (v : Str)
        (rest : List Str),
      matchLong reg n = .resolved i d → d.arity = .hasArg → d.cbArg v = false →
      n ≠ [] → '=' ∉ n →
      parseLoop reg (('-' :: '-' :: (n ++ '=' :: v)) :: rest)
        = (.error (.callbackFail (invalidArg v)), [.evArg i v]))
    ∧ opt_parse twoReg
        [('-' :: '-' :: (("first").toList ++ '=' :: ("bad").toList)),
         ('-' :: '-' :: (("second").toList ++ '=' :: ("ok").toList))]
      = ⟨false, [], [invalidArg (("bad").toList)], [.evArg 0 (("bad").toList)],
         some (.callbackFail (invalidArg (("bad").toList)))⟩ := by
  refine ⟨?_, ?_, by decide⟩
  · intro reg n i d msg rest hm ha hcb hne he
    have hp := parseLoop_long_noArg_fail reg n i d msg rest hm ha hcb hne he
    refine ⟨hp, ?_, ?_⟩
    · simp only [opt_parse, hp]
    · simp only [opt_parse, hp, renderError]
  · intro reg n i d v rest hm ha hcb hne he
    rw [parseLoop_long_inline reg n i d v rest hm ha hne he, hcb]
    simp

/-- Witness for C6: a failing no-argument callback on `--bad`. -/
theorem C6_callback_failure_witness :
    parseLoop [⟨some (("bad").toList), none, .noArg, some (("boom").toList), fun _ => true⟩]
        [('-' :: '-' :: ("bad").toList), ['z']]
      = (.error (.callbackFail (("boom").toList)), [.evNoArg 0])
    ∧ (opt_parse [⟨some (("bad").toList), none, .noArg, some (("boom").toList), fun _ => true⟩]
        [('-' :: '-' :: ("bad").toList), ['z']]).logged = [("boom").toList] := by
  have h := C6_first_callback_failure_halts.1
    [⟨some (("bad").toList), none, .noArg, some (("boom").toList), fun _ => true⟩]
    (("bad").toList) 0
    ⟨some (("bad").toList), none, .noArg, some (("boom").toList), fun _ => true⟩
    (("boom").toList) [['z']] rfl rfl rfl (by decide) (by decide)
  exact ⟨h.1, h.2.2⟩

/-- Claim C7: registration keeps the flattened registry free of duplicate
present long names and duplicate present short names, a conflicting
registration fails at registration time, registering the same long name twice
fails, and sub-tables are flattened depth first in declaration order. -/
theorem C7_registry_names_unique_and_early_failure :
    (∀ (ts : List (List TableEntry)) (reg : Registry),
      registerAll ts = some reg → namesUnique reg)
    ∧ (∀ (reg : Registry) (d : OptDesc),
      nameConflict reg d = true → addDesc reg d = none)
    ∧ registerAll [[.entry dupDesc], [.entry dupDesc]] = none
    ∧ flattenTable [.entry tblA, .sub [.entry tblB] none, .entry tblC]
        = [tblA, tblB, tblC] := by
  refine ⟨?_, addDesc_conflict_none, ?_, ?_⟩
  · intro ts reg h
    exact (registerAll_inv ts reg h).1
  · simp [registerAll, registerTable, flattenTable, addDesc, nameConflict,
      wellFormedEntry, dupDesc]
  · simp [flattenTable]

/-- Witness for C7: a successful two-entry registration yields a registry
satisfying the uniqueness invariant. -/
theorem C7_registry_witness : namesUnique [tblA, tblB] := by
  have hreg : registerAll [[.entry tblA, .entry tblB]] = some [tblA, tblB] := by
    simp [registerAll, registerTable, flattenTable, addDesc, nameConflict,
      wellFormedEntry, tblA, tblB]
  exact C7_registry_names_unique_and_early_failure.1
    [[.entry tblA, .entry tblB]] [tblA, tblB] hreg

/-- Counterexample to claim C8: the `--verbose`/`-v` entry documented in
`src/ccan/opt/opt.h` lines 102-110 carries both a long and a short name, is
accepted by registration as the header documents (at least one name set), and
falsifies the claimed exactly-one-name invariant. -/
theorem C8_counterexample_verbose_both_names :
    exactlyOneName verboseDesc = false
      ∧ wellFormedEntry verboseDesc = true
      ∧ addDesc [] verboseDesc = some [verboseDesc] := by
  refine ⟨rfl, rfl, ?_⟩
  simp [addDesc, nameConflict, wellFormedEntry, verboseDesc]

/-- Claim C8 as amended: every registered descriptor has at least one of the
long and short names set; descriptors carrying both names are well formed and
accepted, as `src/ccan/opt/opt.h` documents and exemplifies. -/
theorem C8_amended_at_least_one_name :
    ∀ (ts : List (List TableEntry)) (reg : Registry),
      registerAll ts = some reg → ∀ d ∈ reg, wellFormedEntry d = true := by
  intro ts reg h
  exact (registerAll_inv ts reg h).2

/-- Witness for the amended C8 at the registered `--verbose`/`-v`
descriptor. -/
theorem C8_amended_witness : wellFormedEntry verboseDesc = true := by
  have hreg : registerAll [[.entry verboseDesc]] = some [verboseDesc] := by
    simp [registerAll, registerTable, flattenTable, addDesc, nameConflict,
      wellFormedEntry, verboseDesc]
  exact C8_amended_at_least_one_name [[.entry verboseDesc]] [verboseDesc] hreg
    verboseDesc (by simp)

end Ccan
